import Mathlib

set_option maxHeartbeats 1000000

/-!
Shallow embedding of the LitReview species-extraction pipeline
(`scripts/extract_species.py`) and proofs about its specification.

The pipeline reads a tabular file, runs an external NER model on one text
column per row, keeps spans labelled `TAXON`, strips whitespace, deduplicates
per row via Python `set` semantics, joins the per-row entities with the fixed
delimiter `"; "`, tallies corpus-wide counts with `collections.Counter`, and
writes an annotated table plus (when nonempty) a summary table sorted by
count descending.

Python `set` iteration order is not fixed by the language (string hashing is
randomised across processes), so the embedding is parameterised by an
arbitrary deduplication order `o`; `ValidSetOrder o` captures exactly what
`list(set(xs))` guarantees: a duplicate-free list with the same members.
-/

deriving instance DecidableEq for Except

namespace LitReview

/-- A labelled span returned by the NER model for one text, as produced by
`doc.ents` (span text and entity label). -/
structure Span where
  text : String
  label : String
deriving DecidableEq, Repr

/-- The external model capability: one text in, a list of labelled spans out. -/
abbrev Model := String → List Span

/-- A tabular cell value: missing (`NaN`, `pd.isna` true), a string, or a
non-null non-string scalar such as a numeric cell. -/
inductive CellValue where
  | na : CellValue
  | str (s : String) : CellValue
  | num (x : Int) : CellValue
deriving DecidableEq, Repr

/-- Python runtime errors the embedded code can raise. Calling `.strip()` on a
non-string raises `AttributeError`. -/
inductive PyError where
  | attributeError : PyError
deriving DecidableEq, Repr

/-- Whitespace test used by Python `str.strip`. -/
def wsChar (c : Char) : Bool := c.isWhitespace

/-- Strip leading and trailing whitespace from a character list (the character
level model of Python `str.strip()`). -/
def stripChars (l : List Char) : List Char :=
  ((l.dropWhile wsChar).reverse.dropWhile wsChar).reverse

/-- Python `s.strip()` on a string value. -/
def pyStrip (s : String) : String := String.mk (stripChars s.data)

/-- Python `'; '.join(xs)`. -/
def joinSemi : List String → String
  | [] => ""
  | [x] => x
  | x :: y :: ys => x ++ "; " ++ joinSemi (y :: ys)

/-- A deduplication order is a faithful model of `list(set(xs))` when it
returns a duplicate-free list with exactly the members of its input. -/
def ValidSetOrder (o : List String → List String) : Prop :=
  ∀ l : List String, (o l).Nodup ∧ ∀ x : String, x ∈ o l ↔ x ∈ l

/-- The per-text entity list before deduplication: spans whose label is in
`["TAXON"]`, each span text stripped — the list comprehension
`[ent.text.strip() for ent in doc.ents if ent.label_ in ["TAXON"]]`. -/
def taxonEntities (nlp : Model) (s : String) : List String :=
  ((nlp s).filter (fun ent => ent.label ∈ (["TAXON"] : List String))).map
    (fun ent => pyStrip ent.text)

/-- Embedding of `extract_species_from_text(nlp, text)`. Returns the Python
result (`Except` for a raised error) together with the number of times the
underlying model was invoked during the call.

Source: `if pd.isna(text) or not text.strip(): return []` then
`doc = nlp(str(text))`, label filter, strip, `return list(set(entities))`. -/
def extract_species_from_text (o : List String → List String) (nlp : Model)
    (text : CellValue) : Except PyError (List String) × Nat :=
  match text with
  | CellValue.na => (Except.ok [], 0)
  | CellValue.num _ => (Except.error PyError.attributeError, 0)
  | CellValue.str s =>
    if pyStrip s = "" then (Except.ok [], 0)
    else (Except.ok (o (taxonEntities nlp s)), 1)

/-- One input row: a mapping from column name to cell value. -/
abbrev Row := List (String × CellValue)

/-- The in-memory table produced by `pd.read_csv`. -/
structure DataFrame where
  columns : List String
  rows : List Row
deriving DecidableEq, Repr

/-- An input row plus the two derived fields `extracted_species` and
`species_count`. -/
structure AnnotatedRow where
  orig : Row
  extracted_species : String
  species_count : Nat
deriving DecidableEq, Repr

/-- Cell lookup `row[text_column]`. -/
def getCell (r : Row) (c : String) : CellValue :=
  match r.find? (fun p => p.1 = c) with
  | some p => p.2
  | none => CellValue.na

/-- The row loop of `process_csv`: per row, call the extractor on the text
cell, derive `extracted_species` (`'; '.join(species) if species else ''`) and
`species_count` (`len(species)`), and extend `all_species`. An uncaught
per-row error aborts the whole loop, as in the source. -/
def runRows (o : List String → List String) (nlp : Model) (col : String) :
    List Row → Except PyError (List AnnotatedRow × List String)
  | [] => Except.ok ([], [])
  | r :: rs =>
    match (extract_species_from_text o nlp (getCell r col)).1 with
    | Except.error e => Except.error e
    | Except.ok species =>
      match runRows o nlp col rs with
      | Except.error e => Except.error e
      | Except.ok (ann, acc) =>
        Except.ok
          (⟨r, (if species = [] then "" else joinSemi species), species.length⟩ :: ann,
            species ++ acc)

/-- `collections.Counter(all_species)` as an association list: one entry per
distinct name, keys in first-encounter (dict insertion) order, values the
total number of occurrences in the input. -/
def counterList : List String → List (String × Nat)
  | [] => []
  | x :: xs => (x, xs.count x + 1) :: (counterList xs).filter (fun p => p.1 ≠ x)

/-- Count lookup in a tally (0 when the name is absent). -/
def tallyCount (c : List (String × Nat)) (name : String) : Nat :=
  match c.find? (fun p => p.1 = name) with
  | some p => p.2
  | none => 0

/-- Stable descending insertion by count: the new pair goes after every pair
with a strictly larger count and before every pair with a smaller-or-equal
count, which is how Python's stable `sorted(..., reverse=True)` orders ties. -/
def insDesc (x : String × Nat) : List (String × Nat) → List (String × Nat)
  | [] => [x]
  | y :: ys => if x.2 < y.2 then y :: insDesc x ys else x :: y :: ys

/-- `Counter.most_common()`: the tally sorted by count descending, ties kept
in first-encounter (dict insertion) order, via a stable insertion sort. -/
def most_common (c : List (String × Nat)) : List (String × Nat) :=
  c.foldr insDesc []

/-- Observable filesystem effects of a run. -/
inductive Effect where
  | mkdirParents (path : String)
  | writeFile (path : String)
deriving DecidableEq, Repr

/-- How a `process_csv` call ends. -/
inductive RunOutcome where
  | readError : RunOutcome
  | missingColumn (availableMsg : String) : RunOutcome
  | rowError (e : PyError) : RunOutcome
  | done (annotated : List AnnotatedRow) (summary : Option (List (String × Nat))) :
      RunOutcome
deriving DecidableEq, Repr

/-- Default primary output path used when `--output` is omitted. -/
def defaultOutputFile : String := "data/output/results_with_species.csv"

/-- `output_file.replace('.csv', '_species_summary.csv')`. -/
def summaryFileOf (outputFile : String) : String :=
  outputFile.replace ".csv" "_species_summary.csv"

/-- Embedding of `process_csv(input_file, text_column, output_file)`. The
read result stands for `pd.read_csv`; the returned effect list records the
directory creation and file writes the call performs. -/
def process_csv (o : List String → List String) (nlp : Model)
    (readResult : Except Unit DataFrame) (text_column : String)
    (output : Option String) : RunOutcome × List Effect :=
  match readResult with
  | Except.error _ => (RunOutcome.readError, [])
  | Except.ok df =>
    if text_column ∈ df.columns then
      match runRows o nlp text_column df.rows with
      | Except.error e => (RunOutcome.rowError e, [])
      | Except.ok (ann, allSpecies) =>
        let species_counter := counterList allSpecies
        let output_file := output.getD defaultOutputFile
        if species_counter.length > 0 then
          (RunOutcome.done ann (some (most_common species_counter)),
            [Effect.mkdirParents output_file, Effect.writeFile output_file,
              Effect.writeFile (summaryFileOf output_file)])
        else
          (RunOutcome.done ann none,
            [Effect.mkdirParents output_file, Effect.writeFile output_file])
    else
      (RunOutcome.missingColumn (String.intercalate ", " df.columns), [])

/-- Exit code contribution of a finished `process_csv`: an uncaught per-row
exception terminates the process abnormally; every other outcome returns
normally from `process_csv`. -/
def exitCodeOf : RunOutcome → Nat
  | RunOutcome.rowError _ => 1
  | _ => 0

/-- Embedding of `main()`: the input-existence check happens before any
processing; a missing input prints a diagnostic and exits with status 1
without creating any directory or file. -/
def main (inputExists : Bool) (o : List String → List String) (nlp : Model)
    (readResult : Except Unit DataFrame) (text_column : String)
    (output : Option String) : Nat × List Effect :=
  if inputExists then
    let r := process_csv o nlp readResult text_column output
    (exitCodeOf r.1, r.2)
  else (1, [])

/-- Split a character list at every `;` (the segment structure that the
specification's "`;`-delimited segments" refers to). -/
def splitSemis : List Char → List (List Char)
  | [] => [[]]
  | c :: cs =>
    if c = ';' then [] :: splitSemis cs
    else
      match splitSemis cs with
      | s :: ss => (c :: s) :: ss
      | [] => [[c]]

/-- The `;`-delimited, trimmed, non-empty segments of a string. -/
def segList (s : String) : List String :=
  (((splitSemis s.data).map stripChars).filter (fun t => t ≠ [])).map String.mk

/-- The specification's per-row invariant: `species_count == 0` iff
`extracted_species == ""`, and a positive count equals the number of
`;`-delimited, trimmed, non-empty segments. -/
def rowInvariant (r : AnnotatedRow) : Prop :=
  (r.species_count = 0 ↔ r.extracted_species = "") ∧
  (0 < r.species_count → r.species_count = (segList r.extracted_species).length)

instance (r : AnnotatedRow) : Decidable (rowInvariant r) := by
  unfold rowInvariant
  infer_instance

/-- First-occurrence deduplication: one faithful `list(set(xs))` order. -/
def firstDedup : List String → List String
  | [] => []
  | x :: xs => x :: (firstDedup xs).filter (fun y => y ≠ x)

/-- Reversed first-occurrence deduplication: another faithful
`list(set(xs))` order (Python fixes no particular one). -/
def revDedup (l : List String) : List String := (firstDedup l).reverse

/-- A stub model realising the specification's tally example: the four texts
`t1`..`t4` produce the extraction sets `{A,B}`, `{A}`, `{}`, `{B,C}`. -/
def nlpEx : Model := fun t =>
  if t = "t1" then [⟨"A", "TAXON"⟩, ⟨"B", "TAXON"⟩]
  else if t = "t2" then [⟨"A", "TAXON"⟩]
  else if t = "t3" then []
  else [⟨"B", "TAXON"⟩, ⟨"C", "TAXON"⟩]

/-- Four-row input table for the tally example. -/
def dfEx : DataFrame :=
  ⟨["abstract"],
    [[("abstract", CellValue.str "t1")], [("abstract", CellValue.str "t2")],
      [("abstract", CellValue.str "t3")], [("abstract", CellValue.str "t4")]]⟩

/-- Expected annotated rows for `dfEx` under the first-occurrence order. -/
def annEx : List AnnotatedRow :=
  [⟨[("abstract", CellValue.str "t1")], "A; B", 2⟩,
    ⟨[("abstract", CellValue.str "t2")], "A", 1⟩,
    ⟨[("abstract", CellValue.str "t3")], "", 0⟩,
    ⟨[("abstract", CellValue.str "t4")], "B; C", 2⟩]

/-- Expected `all_species` accumulator for `dfEx`. -/
def allEx : List String := ["A", "B", "A", "B", "C"]

/-- One-row input table with an ordinary text cell. -/
def dfOne : DataFrame :=
  ⟨["abstract"], [[("abstract", CellValue.str "some text")]]⟩

/-- One-row input table whose text is `t1`. -/
def df9 : DataFrame := ⟨["abstract"], [[("abstract", CellValue.str "t1")]]⟩

/-- A model emitting a whitespace-only `TAXON` span. -/
def nlpBad1 : Model := fun _ => [⟨" ", "TAXON"⟩]

/-- A model emitting a `TAXON` span containing the delimiter `"; "`. -/
def nlpBad2 : Model := fun _ => [⟨"a; b", "TAXON"⟩]

/-- A model that recognises nothing. -/
def nlpNone : Model := fun _ => []

/-- A model that always emits the single well-behaved span `A`. -/
def nlpTame : Model := fun _ => [⟨"A", "TAXON"⟩]

/-- Input table with columns `[title, year]` and no `abstract` column. -/
def dfMissing : DataFrame :=
  ⟨["title", "year"], [[("title", CellValue.str "p"), ("year", CellValue.num 2020)]]⟩

/-- Whether a row's (deduplicated) extraction set contains `name`; false when
the extractor raises on that row. -/
def rowMentions (o : List String → List String) (nlp : Model) (col name : String)
    (r : Row) : Bool :=
  match (extract_species_from_text o nlp (getCell r col)).1 with
  | Except.ok l => decide (name ∈ l)
  | Except.error _ => false

/-- A well-behaved entity name: already stripped, non-empty, and free of the
delimiter character `;`. -/
def GoodStr (e : String) : Prop :=
  stripChars e.data = e.data ∧ e.data ≠ [] ∧ ';' ∉ e.data

/-- A model whose `TAXON` spans strip to non-empty names that contain no `;`
(every real taxon name does). -/
def TameModel (nlp : Model) : Prop :=
  ∀ t : String, ∀ sp ∈ nlp t, sp.label = "TAXON" →
    pyStrip sp.text ≠ "" ∧ ';' ∉ (pyStrip sp.text).data

/-- Membership is preserved by first-occurrence deduplication. -/
theorem firstDedup_mem (l : List String) (y : String) : y ∈ firstDedup l ↔ y ∈ l := by
  induction l with
  | nil => simp [firstDedup]
  | cons x xs ih =>
    simp only [firstDedup, List.mem_cons, List.mem_filter, ih, decide_eq_true_eq]
    by_cases hyx : y = x <;> simp [hyx]

/-- First-occurrence deduplication returns a duplicate-free list. -/
theorem firstDedup_nodup (l : List String) : (firstDedup l).Nodup := by
  induction l with
  | nil => simp [firstDedup]
  | cons x xs ih =>
    rw [firstDedup, List.nodup_cons]
    refine ⟨?_, List.Nodup.filter _ ih⟩
    intro hmem
    have := (List.mem_filter.mp hmem).2
    simp at this

/-- `firstDedup` is a faithful order for `list(set(xs))`. -/
theorem validSetOrder_firstDedup : ValidSetOrder firstDedup :=
  fun l => ⟨firstDedup_nodup l, fun x => firstDedup_mem l x⟩

/-- `revDedup` is also a faithful order for `list(set(xs))`. -/
theorem validSetOrder_revDedup : ValidSetOrder revDedup := by
  intro l
  refine ⟨?_, ?_⟩
  · exact List.nodup_reverse.mpr (firstDedup_nodup l)
  · intro x
    rw [revDedup, List.mem_reverse]
    exact firstDedup_mem l x

/-- The tally keys are exactly the input names in first-encounter order. -/
theorem counterList_map_fst (l : List String) :
    (counterList l).map Prod.fst = firstDedup l := by
  induction l with
  | nil => rfl
  | cons x xs ih =>
    simp only [counterList, firstDedup, List.map_cons, List.cons.injEq, true_and]
    rw [← ih, List.filter_map]
    rfl

/-- Every tally entry carries the total occurrence count of its key. -/
theorem counterList_count (l : List String) :
    ∀ p ∈ counterList l, p.2 = l.count p.1 := by
  induction l with
  | nil => simp [counterList]
  | cons x xs ih =>
    intro p hp
    rw [counterList, List.mem_cons] at hp
    rcases hp with rfl | hp
    · simp
    · obtain ⟨hmem, hne⟩ := List.mem_filter.mp hp
      have hne2 : p.1 ≠ x := by simpa using hne
      rw [ih p hmem, List.count_cons_of_ne hne2]

/-- Unfolding lemma for `tallyCount` on a cons cell. -/
theorem tallyCount_cons (p : String × Nat) (ps : List (String × Nat)) (a : String) :
    tallyCount (p :: ps) a = if p.1 = a then p.2 else tallyCount ps a := by
  by_cases h : p.1 = a
  · simp [tallyCount, h]
  · simp [tallyCount, h]

/-- Removing entries for a different key does not change a lookup. -/
theorem tallyCount_filter_ne (c : List (String × Nat)) (a x : String) (h : a ≠ x) :
    tallyCount (c.filter (fun p => p.1 ≠ x)) a = tallyCount c a := by
  induction c with
  | nil => rfl
  | cons p ps ih =>
    by_cases hpx : p.1 = x
    · have hpa : ¬ p.1 = a := fun hc => h (hc ▸ hpx ▸ rfl)
      rw [List.filter_cons_of_neg (by simpa using hpx), ih, tallyCount_cons, if_neg hpa]
    · rw [List.filter_cons_of_pos (by simpa using hpx), tallyCount_cons, tallyCount_cons]
      by_cases hpa : p.1 = a
      · rw [if_pos hpa, if_pos hpa]
      · rw [if_neg hpa, if_neg hpa, ih]

/-- A tally lookup equals the occurrence count in the underlying list. -/
theorem tallyCount_counterList (l : List String) (a : String) :
    tallyCount (counterList l) a = l.count a := by
  induction l with
  | nil => rfl
  | cons x xs ih =>
    rw [counterList, tallyCount_cons]
    by_cases hax : x = a
    · subst hax
      simp
    · rw [if_neg hax, tallyCount_filter_ne _ _ _ (Ne.symm hax), ih,
        List.count_cons_of_ne (Ne.symm hax)]

/-- The tally is empty exactly when the input list is. -/
theorem counterList_eq_nil_iff (l : List String) : counterList l = [] ↔ l = [] := by
  cases l <;> simp [counterList]

/-- Stable descending insertion permutes its input. -/
theorem insDesc_perm (x : String × Nat) (l : List (String × Nat)) :
    (insDesc x l).Perm (x :: l) := by
  induction l with
  | nil => exact List.Perm.refl _
  | cons y ys ih =>
    rw [insDesc]
    by_cases h : x.2 < y.2
    · rw [if_pos h]
      exact (ih.cons y).trans (List.Perm.swap x y ys)
    · rw [if_neg h]

/-- `most_common` permutes the tally it sorts. -/
theorem most_common_perm (c : List (String × Nat)) : (most_common c).Perm c := by
  induction c with
  | nil => exact List.Perm.refl _
  | cons x xs ih =>
    simp only [most_common, List.foldr_cons]
    simp only [most_common] at ih
    exact (insDesc_perm x _).trans (ih.cons x)

/-- Members of an insertion are the inserted pair or members of the list. -/
theorem insDesc_mem {x z : String × Nat} {l : List (String × Nat)}
    (h : z ∈ insDesc x l) : z = x ∨ z ∈ l := by
  have := (insDesc_perm x l).mem_iff.mp h
  simpa using this

/-- Stable descending insertion preserves descending order by count. -/
theorem insDesc_sorted (x : String × Nat) (l : List (String × Nat))
    (h : l.Pairwise (fun p q => q.2 ≤ p.2)) :
    (insDesc x l).Pairwise (fun p q => q.2 ≤ p.2) := by
  induction l with
  | nil => simp [insDesc]
  | cons y ys ih =>
    rw [insDesc]
    by_cases hxy : x.2 < y.2
    · rw [if_pos hxy]
      obtain ⟨hy, hys⟩ := List.pairwise_cons.mp h
      refine List.Pairwise.cons ?_ (ih hys)
      intro z hz
      rcases insDesc_mem hz with rfl | hz
      · exact Nat.le_of_lt hxy
      · exact hy z hz
    · rw [if_neg hxy]
      refine List.Pairwise.cons ?_ h
      intro z hz
      rcases List.mem_cons.mp hz with rfl | hz
      · exact Nat.le_of_not_lt hxy
      · exact Nat.le_trans ((List.pairwise_cons.mp h).1 z hz) (Nat.le_of_not_lt hxy)

/-- The `most_common` output is sorted by count descending. -/
theorem most_common_sorted (c : List (String × Nat)) :
    (most_common c).Pairwise (fun p q => q.2 ≤ p.2) := by
  induction c with
  | nil => simp [most_common]
  | cons x xs ih =>
    simp only [most_common, List.foldr_cons]
    simp only [most_common] at ih
    exact insDesc_sorted x _ ih

/-- Inserting a pair of count `k` puts it in front of the other count-`k`
pairs, which all sit past the insertion point. -/
theorem insDesc_filter_eq (x : String × Nat) (l : List (String × Nat)) (k : Nat)
    (hx : x.2 = k) :
    (insDesc x l).filter (fun p => p.2 = k) = x :: l.filter (fun p => p.2 = k) := by
  induction l with
  | nil => simp [insDesc, hx]
  | cons y ys ih =>
    rw [insDesc]
    by_cases hxy : x.2 < y.2
    · have hyc : ¬ y.2 = k := by omega
      rw [if_pos hxy, List.filter_cons_of_neg (by simpa using hyc), ih,
        List.filter_cons_of_neg (by simpa using hyc)]
    · rw [if_neg hxy, List.filter_cons_of_pos (by simpa using hx)]

/-- Inserting a pair of a different count leaves the count-`k` pairs as they
were. -/
theorem insDesc_filter_ne (x : String × Nat) (l : List (String × Nat)) (k : Nat)
    (hx : ¬ x.2 = k) :
    (insDesc x l).filter (fun p => p.2 = k) = l.filter (fun p => p.2 = k) := by
  induction l with
  | nil => simp [insDesc, hx]
  | cons y ys ih =>
    rw [insDesc]
    by_cases hxy : x.2 < y.2
    · by_cases hyc : y.2 = k
      · rw [if_pos hxy, List.filter_cons_of_pos (by simpa using hyc), ih,
          List.filter_cons_of_pos (by simpa using hyc)]
      · rw [if_pos hxy, List.filter_cons_of_neg (by simpa using hyc), ih,
          List.filter_cons_of_neg (by simpa using hyc)]
    · rw [if_neg hxy, List.filter_cons_of_neg (by simpa using hx)]

/-- Stability of `most_common`: within one count class the sorted output
keeps exactly the tally's first-encounter order. -/
theorem most_common_filter (c : List (String × Nat)) (k : Nat) :
    (most_common c).filter (fun p => p.2 = k) = c.filter (fun p => p.2 = k) := by
  induction c with
  | nil => rfl
  | cons x xs ih =>
    simp only [most_common, List.foldr_cons]
    simp only [most_common] at ih
    by_cases hx : x.2 = k
    · rw [insDesc_filter_eq _ _ _ hx, ih, List.filter_cons_of_pos (by simpa using hx)]
    · rw [insDesc_filter_ne _ _ _ hx, ih, List.filter_cons_of_neg (by simpa using hx)]

/-- Membership in the pre-deduplication entity list: exactly the stripped
texts of the `TAXON`-labelled spans. -/
theorem taxonEntities_mem (nlp : Model) (s x : String) :
    x ∈ taxonEntities nlp s ↔
      ∃ sp, sp ∈ nlp s ∧ sp.label = "TAXON" ∧ x = pyStrip sp.text := by
  simp only [taxonEntities, List.mem_map, List.mem_filter, List.mem_singleton,
    decide_eq_true_eq]
  constructor
  · rintro ⟨sp, ⟨hsp, hl⟩, rfl⟩
    exact ⟨sp, hsp, hl, rfl⟩
  · rintro ⟨sp, hsp, hl, rfl⟩
    exact ⟨sp, ⟨hsp, hl⟩, rfl⟩

/-- A successful extraction always returns a duplicate-free list. -/
theorem extract_ok_nodup {o : List String → List String} (ho : ValidSetOrder o)
    (nlp : Model) (v : CellValue) (l : List String)
    (h : (extract_species_from_text o nlp v).1 = Except.ok l) : l.Nodup := by
  cases v with
  | na =>
    simp only [extract_species_from_text, Except.ok.injEq] at h
    rw [← h]
    exact List.nodup_nil
  | num x => simp [extract_species_from_text] at h
  | str s =>
    rw [extract_species_from_text] at h
    by_cases hs : pyStrip s = ""
    · rw [if_pos hs] at h
      simp only [Except.ok.injEq] at h
      rw [← h]
      exact List.nodup_nil
    · rw [if_neg hs] at h
      simp only [Except.ok.injEq] at h
      rw [← h]
      exact (ho _).1

/-- A successful extraction on a string cell that passes the blank guard is
the deduplication of the `TAXON` entity list. -/
theorem extract_str_ok {o : List String → List String} (nlp : Model) (s : String)
    (hs : ¬ pyStrip s = "") :
    extract_species_from_text o nlp (CellValue.str s) =
      (Except.ok (o (taxonEntities nlp s)), 1) := by
  rw [extract_species_from_text, if_neg hs]

/-- When every row extracts the empty set, the loop annotates every row with
the empty string and a zero count, and accumulates nothing. -/
theorem runRows_all_empty (o : List String → List String) (nlp : Model) (col : String)
    (rows : List Row)
    (h : ∀ r ∈ rows, (extract_species_from_text o nlp (getCell r col)).1 = Except.ok []) :
    runRows o nlp col rows = Except.ok (rows.map (fun r => ⟨r, "", 0⟩), []) := by
  induction rows with
  | nil => rfl
  | cons r rs ih =>
    have h1 := h r (List.mem_cons_self r rs)
    have h2 := ih (fun x hx => h x (List.mem_cons_of_mem _ hx))
    simp [runRows, h1, h2]

/-- Each annotated row produced by the loop is built from one input row's
successful extraction via the join and the length. -/
theorem runRows_mem (o : List String → List String) (nlp : Model) (col : String)
    (rows : List Row) (ann : List AnnotatedRow) (all : List String)
    (h : runRows o nlp col rows = Except.ok (ann, all)) :
    ∀ a ∈ ann, ∃ species,
      (extract_species_from_text o nlp (getCell a.orig col)).1 = Except.ok species ∧
      a.extracted_species = (if species = [] then "" else joinSemi species) ∧
      a.species_count = species.length := by
  induction rows generalizing ann all with
  | nil =>
    simp only [runRows, Except.ok.injEq, Prod.mk.injEq] at h
    rw [← h.1]
    simp
  | cons r rs ih =>
    rw [runRows] at h
    cases hext : (extract_species_from_text o nlp (getCell r col)).1 with
    | error e => rw [hext] at h; simp at h
    | ok species =>
      rw [hext] at h
      cases hrun : runRows o nlp col rs with
      | error e => rw [hrun] at h; simp at h
      | ok pr =>
        obtain ⟨ann2, acc⟩ := pr
        rw [hrun] at h
        simp only [Except.ok.injEq, Prod.mk.injEq] at h
        obtain ⟨hann, _⟩ := h
        rw [← hann]
        intro a ha
        rcases List.mem_cons.mp ha with rfl | ha
        · exact ⟨species, hext, rfl, rfl⟩
        · exact ih ann2 acc hrun a ha

/-- The `all_species` accumulator counts each name once per row whose
extraction set contains it (per-row extraction is duplicate-free). -/
theorem runRows_count {o : List String → List String} (ho : ValidSetOrder o)
    (nlp : Model) (col : String) (rows : List Row) (ann : List AnnotatedRow)
    (all : List String) (h : runRows o nlp col rows = Except.ok (ann, all))
    (name : String) :
    all.count name = rows.countP (rowMentions o nlp col name) := by
  induction rows generalizing ann all with
  | nil =>
    simp only [runRows, Except.ok.injEq, Prod.mk.injEq] at h
    rw [← h.2]
    simp
  | cons r rs ih =>
    rw [runRows] at h
    cases hext : (extract_species_from_text o nlp (getCell r col)).1 with
    | error e => rw [hext] at h; simp at h
    | ok species =>
      rw [hext] at h
      cases hrun : runRows o nlp col rs with
      | error e => rw [hrun] at h; simp at h
      | ok pr =>
        obtain ⟨ann2, acc⟩ := pr
        rw [hrun] at h
        simp only [Except.ok.injEq, Prod.mk.injEq] at h
        obtain ⟨_, hall⟩ := h
        rw [← hall, List.count_append, List.countP_cons, ih ann2 acc hrun]
        have hrm : rowMentions o nlp col name r = decide (name ∈ species) := by
          rw [rowMentions, hext]
        have hsp : species.count name = if rowMentions o nlp col name r then 1 else 0 := by
          rw [hrm]
          by_cases hmem : name ∈ species
          · rw [if_pos (by simpa using hmem)]
            exact List.count_eq_one_of_mem (extract_ok_nodup ho nlp _ species hext) hmem
          · rw [if_neg (by simpa using hmem)]
            exact List.count_eq_zero_of_not_mem hmem
        omega

/-- The first element surviving `dropWhile` falsifies the predicate. -/
theorem dropWhile_head_false {p : Char → Bool} :
    ∀ (l : List Char) (c : Char) (cs : List Char),
      l.dropWhile p = c :: cs → p c = false := by
  intro l
  induction l with
  | nil => intro c cs h; simp [List.dropWhile] at h
  | cons a as ih =>
    intro c cs h
    rw [List.dropWhile_cons] at h
    by_cases ha : p a
    · rw [if_pos ha] at h
      exact ih c cs h
    · rw [if_neg ha] at h
      injection h with h1 _
      rw [← h1]
      simpa using ha

/-- `dropWhile` commutes with appending one element that falsifies the
predicate. -/
theorem dropWhile_append_singleton {p : Char → Bool} (l : List Char) (a : Char)
    (ha : p a = false) : (l ++ [a]).dropWhile p = l.dropWhile p ++ [a] := by
  induction l with
  | nil => simp [List.dropWhile_cons, ha]
  | cons c cs ih =>
    rw [List.cons_append, List.dropWhile_cons, List.dropWhile_cons]
    by_cases hc : p c
    · rw [if_pos hc, if_pos hc, ih]
    · rw [if_neg hc, if_neg hc, List.cons_append]

/-- Stripping is idempotent. -/
theorem stripChars_idem (l : List Char) : stripChars (stripChars l) = stripChars l := by
  cases hA : l.dropWhile wsChar with
  | nil =>
    have h0 : stripChars l = [] := by
      rw [stripChars, hA]
      rfl
    rw [h0]
    rfl
  | cons a as =>
    have ha : wsChar a = false := dropWhile_head_false l a as hA
    have h1 : stripChars l = a :: (as.reverse.dropWhile wsChar).reverse := by
      rw [stripChars, hA, List.reverse_cons, dropWhile_append_singleton _ _ ha,
        List.reverse_append]
      rfl
    rw [h1, stripChars, List.dropWhile_cons, if_neg (by simp [ha]), List.reverse_cons,
      List.reverse_reverse, dropWhile_append_singleton _ _ ha,
      List.dropWhile_idempotent, List.reverse_append]
    rfl

/-- Stripping drops a leading blank. -/
theorem stripChars_cons_space (a : List Char) : stripChars (' ' :: a) = stripChars a := by
  rw [stripChars, stripChars, List.dropWhile_cons, if_pos (by decide)]

/-- `splitSemis` always yields at least one segment. -/
theorem splitSemis_ne_nil (l : List Char) : splitSemis l ≠ [] := by
  cases l with
  | nil => simp [splitSemis]
  | cons c cs =>
    rw [splitSemis]
    by_cases hc : c = ';'
    · rw [if_pos hc]
      simp
    · rw [if_neg hc]
      rcases h : splitSemis cs with _ | ⟨s, ss⟩ <;> simp

/-- A semicolon-free string is one single segment. -/
theorem splitSemis_no_semi (a : List Char) (h : ';' ∉ a) : splitSemis a = [a] := by
  induction a with
  | nil => rfl
  | cons c cs ih =>
    have hc : c ≠ ';' := fun hh => h (hh ▸ List.mem_cons_self c cs)
    rw [splitSemis, if_neg hc, ih (fun hm => h (List.mem_cons_of_mem _ hm))]

/-- Splitting after a semicolon-free chunk followed by `;` peels off that
chunk as the first segment. -/
theorem splitSemis_append_semi (a b : List Char) (h : ';' ∉ a) :
    splitSemis (a ++ ';' :: b) = a :: splitSemis b := by
  induction a with
  | nil => simp [splitSemis]
  | cons c cs ih =>
    have hc : c ≠ ';' := fun hh => h (hh ▸ List.mem_cons_self c cs)
    rw [List.cons_append, splitSemis, if_neg hc, ih (fun hm => h (List.mem_cons_of_mem _ hm))]

/-- A non-semicolon head character joins the first segment. -/
theorem splitSemis_cons_ne (c : Char) (hc : c ≠ ';') (b s : List Char)
    (ss : List (List Char)) (hb : splitSemis b = s :: ss) :
    splitSemis (c :: b) = (c :: s) :: ss := by
  rw [splitSemis, if_neg hc, hb]

/-- Joining well-behaved names with `"; "` and re-splitting on `;` recovers
exactly the names (each segment trimmed, empties discarded). -/
theorem segList_joinSemi (l : List String) (hne : l ≠ []) (hg : ∀ e ∈ l, GoodStr e) :
    segList (joinSemi l) = l := by
  induction l with
  | nil => exact absurd rfl hne
  | cons x xs ih =>
    obtain ⟨hx1, hx2, hx3⟩ := hg x (List.mem_cons_self _ _)
    cases xs with
    | nil =>
      rw [joinSemi, segList, splitSemis_no_semi x.data hx3, List.map_cons, hx1,
        List.map_nil, List.filter_cons_of_pos (by simpa using hx2), List.filter_nil,
        List.map_cons, List.map_nil]
    | cons y ys =>
      have hxs : ∀ e ∈ y :: ys, GoodStr e := fun e he => hg e (List.mem_cons_of_mem _ he)
      have ihy := ih (by simp) hxs
      have hdata : (joinSemi (x :: y :: ys)).data =
          x.data ++ ';' :: ' ' :: (joinSemi (y :: ys)).data := by
        rw [joinSemi, String.data_append, String.data_append]
        simp
      obtain ⟨s, ss, hsplit⟩ : ∃ s ss, splitSemis (joinSemi (y :: ys)).data = s :: ss := by
        rcases h : splitSemis (joinSemi (y :: ys)).data with _ | ⟨s, ss⟩
        · exact absurd h (splitSemis_ne_nil _)
        · exact ⟨s, ss, rfl⟩
      have hrest : ((List.map stripChars (splitSemis (joinSemi (y :: ys)).data)).filter
          (fun t => t ≠ [])).map String.mk = y :: ys := ihy
      rw [hsplit, List.map_cons] at hrest
      rw [segList, hdata, splitSemis_append_semi _ _ hx3,
        splitSemis_cons_ne ' ' (by decide) _ s ss hsplit, List.map_cons, List.map_cons,
        hx1, stripChars_cons_space, List.filter_cons_of_pos (by simpa using hx2),
        List.map_cons, hrest]

/-- Entities delivered by a tame model through the deduplication are
well-behaved strings. -/
theorem goodStr_of_tame {nlp : Model} (ht : TameModel nlp) {s e : String}
    (he : e ∈ taxonEntities nlp s) : GoodStr e := by
  obtain ⟨sp, hsp, hl, rfl⟩ := (taxonEntities_mem nlp s e).mp he
  obtain ⟨h1, h2⟩ := ht s sp hsp hl
  refine ⟨?_, ?_, h2⟩
  · exact stripChars_idem sp.text.data
  · intro hc
    exact h1 (String.ext hc)

/-- The constant model `nlpTame` is tame. -/
theorem tame_nlpTame : TameModel nlpTame := by
  intro t sp hsp _
  simp only [nlpTame, List.mem_singleton] at hsp
  subst hsp
  exact ⟨by decide, by decide⟩

/-- C2: for every non-blank text input, `extract_species_from_text` returns
exactly the set of whitespace-trimmed span texts of the model-output spans
whose label equals `TAXON`, deduplicated by exact string equality after
trimming; spans with any other label contribute nothing. -/
theorem C2_extract_taxon_set (o : List String → List String) (ho : ValidSetOrder o)
    (nlp : Model) (s : String) (hs : ¬ pyStrip s = "") :
    extract_species_from_text o nlp (CellValue.str s) =
      (Except.ok (o (taxonEntities nlp s)), 1) ∧
    (o (taxonEntities nlp s)).Nodup ∧
    (∀ x : String, x ∈ o (taxonEntities nlp s) ↔
      ∃ sp, sp ∈ nlp s ∧ sp.label = "TAXON" ∧ x = pyStrip sp.text) := by
  refine ⟨extract_str_ok nlp s hs, (ho _).1, ?_⟩
  intro x
  rw [(ho _).2 x]
  exact taxonEntities_mem nlp s x

/-- C2 witness: concrete non-blank input evaluated through the theorem. -/
theorem C2_extract_taxon_set_witness :
    ¬ pyStrip "t1" = "" ∧
    extract_species_from_text firstDedup nlpEx (CellValue.str "t1") =
      (Except.ok (firstDedup (taxonEntities nlpEx "t1")), 1) :=
  ⟨by decide,
    (C2_extract_taxon_set firstDedup validSetOrder_firstDedup nlpEx "t1" (by decide)).1⟩

/-- C4: an absent (`NaN`) input or a whitespace-only string input yields the
empty set and the underlying model is not invoked (call count 0). -/
theorem C4_blank_short_circuit (o : List String → List String) (nlp : Model) :
    extract_species_from_text o nlp CellValue.na = (Except.ok [], 0) ∧
    ∀ s : String, pyStrip s = "" →
      extract_species_from_text o nlp (CellValue.str s) = (Except.ok [], 0) := by
  refine ⟨rfl, ?_⟩
  intro s hs
  rw [extract_species_from_text, if_pos hs]

/-- C4 witness: the missing cell and a whitespace-only cell, both with zero
model invocations. -/
theorem C4_blank_short_circuit_witness :
    extract_species_from_text firstDedup nlpEx CellValue.na = (Except.ok [], 0) ∧
    pyStrip "  " = "" ∧
    extract_species_from_text firstDedup nlpEx (CellValue.str "  ") = (Except.ok [], 0) :=
  ⟨(C4_blank_short_circuit firstDedup nlpEx).1, by decide,
    (C4_blank_short_circuit firstDedup nlpEx).2 "  " (by decide)⟩

/-- C10: a non-null, non-string cell raises `AttributeError` in the blank
guard (`.strip()` runs on the raw value before the `str()` coercion), so
`extract_species_from_text` errors out without invoking the model. -/
theorem C10_non_string_raises (o : List String → List String) (nlp : Model) (x : Int) :
    extract_species_from_text o nlp (CellValue.num x) =
      (Except.error PyError.attributeError, 0) := rfl

/-- C5: when the configured text column is absent, `process_csv` ends with the
missing-column diagnostic that enumerates all actual column names, and writes
nothing. -/
theorem C5_missing_column (o : List String → List String) (nlp : Model)
    (df : DataFrame) (col : String) (out : Option String) (h : col ∉ df.columns) :
    process_csv o nlp (Except.ok df) col out =
      (RunOutcome.missingColumn (String.intercalate ", " df.columns), []) := by
  rw [process_csv, if_neg h]

/-- C5 witness: a `[title, year]` table asked for `abstract`, with the message
evaluated to the full column enumeration. -/
theorem C5_missing_column_witness :
    "abstract" ∉ dfMissing.columns ∧
    String.intercalate ", " dfMissing.columns = "title, year" ∧
    process_csv firstDedup nlpEx (Except.ok dfMissing) "abstract" none =
      (RunOutcome.missingColumn (String.intercalate ", " dfMissing.columns), []) :=
  ⟨by decide, by decide,
    C5_missing_column firstDedup nlpEx dfMissing "abstract" none (by decide)⟩

/-- C6: when every row's extraction set is empty, the primary annotated output
is still written, every row carries the empty string and a zero count, and no
summary file is written. -/
theorem C6_zero_matches (o : List String → List String) (nlp : Model) (df : DataFrame)
    (col : String) (out : Option String) (hcol : col ∈ df.columns)
    (hempty : ∀ r ∈ df.rows,
      (extract_species_from_text o nlp (getCell r col)).1 = Except.ok []) :
    process_csv o nlp (Except.ok df) col out =
      (RunOutcome.done (df.rows.map (fun r => ⟨r, "", 0⟩)) none,
        [Effect.mkdirParents (out.getD defaultOutputFile),
          Effect.writeFile (out.getD defaultOutputFile)]) := by
  rw [process_csv, if_pos hcol, runRows_all_empty o nlp col df.rows hempty]
  rfl

/-- C6 witness: a one-row table under the empty model. -/
theorem C6_zero_matches_witness :
    "abstract" ∈ dfOne.columns ∧
    process_csv firstDedup nlpNone (Except.ok dfOne) "abstract" none =
      (RunOutcome.done (dfOne.rows.map (fun r => ⟨r, "", 0⟩)) none,
        [Effect.mkdirParents (none.getD defaultOutputFile),
          Effect.writeFile (none.getD defaultOutputFile)]) :=
  ⟨by decide,
    C6_zero_matches firstDedup nlpNone dfOne "abstract" none (by decide) (by decide)⟩

/-- C7: with a nonexistent input path, `main` exits with the non-zero status 1
before any processing and creates neither the output directory nor any file. -/
theorem C7_missing_input (o : List String → List String) (nlp : Model)
    (readResult : Except Unit DataFrame) (col : String) (out : Option String) :
    main false o nlp readResult col out = (1, []) ∧
    (main false o nlp readResult col out).1 ≠ 0 :=
  ⟨rfl, by simp [main]⟩

/-- C1: the corpus-wide tally maps each name to the number of rows whose
deduplicated extraction set contains it (each row contributes at most one
increment per distinct name); on the example rows producing the sets
`{A,B}`, `{A}`, `{}`, `{B,C}` the tally is `{A:2, B:2, C:1}` and the top-2
by count with ties by first encounter is `[A, B]`. -/
theorem C1_tally (o : List String → List String) (ho : ValidSetOrder o) (nlp : Model)
    (col : String) (rows : List Row) (ann : List AnnotatedRow) (all : List String)
    (h : runRows o nlp col rows = Except.ok (ann, all)) :
    (∀ name, tallyCount (counterList all) name =
      rows.countP (rowMentions o nlp col name)) ∧
    (runRows firstDedup nlpEx "abstract" dfEx.rows = Except.ok (annEx, allEx) ∧
      counterList allEx = [("A", 2), ("B", 2), ("C", 1)] ∧
      ((most_common (counterList allEx)).take 2).map Prod.fst = ["A", "B"]) := by
  refine ⟨?_, by decide, by decide, by decide⟩
  intro name
  rw [tallyCount_counterList, runRows_count ho nlp col rows ann all h name]

/-- C1 witness: the example run evaluated through the theorem at name `A`. -/
theorem C1_tally_witness :
    runRows firstDedup nlpEx "abstract" dfEx.rows = Except.ok (annEx, allEx) ∧
    tallyCount (counterList allEx) "A" =
      dfEx.rows.countP (rowMentions firstDedup nlpEx "abstract" "A") :=
  ⟨by decide,
    (C1_tally firstDedup validSetOrder_firstDedup nlpEx "abstract" dfEx.rows annEx allEx
      (by decide)).1 "A"⟩

/-- C8: whenever at least one species was found, the summary is the tally
sorted by count descending with exactly one entry per distinct species, the
counts are the row-mention counts, and ties keep the first-encounter order of
the tally. -/
theorem C8_summary (o : List String → List String) (ho : ValidSetOrder o) (nlp : Model)
    (df : DataFrame) (col : String) (out : Option String) (ann : List AnnotatedRow)
    (allSpecies : List String) (hcol : col ∈ df.columns)
    (hrun : runRows o nlp col df.rows = Except.ok (ann, allSpecies))
    (hne : allSpecies ≠ []) :
    (process_csv o nlp (Except.ok df) col out).1 =
      RunOutcome.done ann (some (most_common (counterList allSpecies))) ∧
    ((most_common (counterList allSpecies)).map Prod.fst).Nodup ∧
    (∀ s, s ∈ (most_common (counterList allSpecies)).map Prod.fst ↔ s ∈ allSpecies) ∧
    (∀ p ∈ most_common (counterList allSpecies),
      p.2 = allSpecies.count p.1 ∧
      p.2 = df.rows.countP (rowMentions o nlp col p.1)) ∧
    (most_common (counterList allSpecies)).Pairwise (fun p q => q.2 ≤ p.2) ∧
    (∀ k, (most_common (counterList allSpecies)).filter (fun p => p.2 = k) =
      (counterList allSpecies).filter (fun p => p.2 = k)) ∧
    (counterList allSpecies).map Prod.fst = firstDedup allSpecies := by
  have hperm := most_common_perm (counterList allSpecies)
  have hkeys := counterList_map_fst allSpecies
  have hkeysperm := hperm.map Prod.fst
  refine ⟨?_, ?_, ?_, ?_, most_common_sorted _, fun k => most_common_filter _ k, hkeys⟩
  · rw [process_csv, if_pos hcol, hrun]
    have hc : (counterList allSpecies).length > 0 := by
      rcases hcl : counterList allSpecies with _ | ⟨p, ps⟩
      · exact absurd ((counterList_eq_nil_iff allSpecies).mp hcl) hne
      · simp
    simp [hc]
  · exact hkeysperm.symm.nodup (by rw [hkeys]; exact firstDedup_nodup allSpecies)
  · intro s
    rw [hkeysperm.mem_iff, hkeys, firstDedup_mem]
  · intro p hp
    have hcount := counterList_count allSpecies p (hperm.mem_iff.mp hp)
    refine ⟨hcount, ?_⟩
    rw [hcount, runRows_count ho nlp col df.rows ann allSpecies hrun p.1]

/-- C8 witness: the example run's summary evaluated through the theorem. -/
theorem C8_summary_witness :
    "abstract" ∈ dfEx.columns ∧ allEx ≠ [] ∧
    (process_csv firstDedup nlpEx (Except.ok dfEx) "abstract" none).1 =
      RunOutcome.done annEx (some (most_common (counterList allEx))) :=
  ⟨by decide, by decide,
    (C8_summary firstDedup validSetOrder_firstDedup nlpEx dfEx "abstract" none annEx allEx
      (by decide) (by decide) (by decide)).1⟩

/-- C3 counterexample: the claimed invariant fails as stated. A model span
whose text strips to the empty string yields a row with `species_count = 1`
but `extracted_species = ""`; a span containing `"; "` yields a row whose
count 1 differs from its 2 delimiter-separated segments. -/
theorem C3_counterexample :
    (process_csv firstDedup nlpBad1 (Except.ok dfOne) "abstract" none).1 =
      RunOutcome.done [⟨[("abstract", CellValue.str "some text")], "", 1⟩]
        (some [("", 1)]) ∧
    ¬ rowInvariant ⟨[("abstract", CellValue.str "some text")], "", 1⟩ ∧
    (process_csv firstDedup nlpBad2 (Except.ok dfOne) "abstract" none).1 =
      RunOutcome.done [⟨[("abstract", CellValue.str "some text")], "a; b", 1⟩]
        (some [("a; b", 1)]) ∧
    ¬ rowInvariant ⟨[("abstract", CellValue.str "some text")], "a; b", 1⟩ :=
  ⟨by decide, by decide, by decide, by decide⟩

/-- C3 amended: for runs of a model whose `TAXON` spans strip to non-empty
names free of `;`, every produced AnnotatedRow satisfies
`species_count = 0 ↔ extracted_species = ""`, and a positive count equals the
number of `;`-delimited, trimmed, non-empty segments. -/
theorem C3_amended (o : List String → List String) (ho : ValidSetOrder o) (nlp : Model)
    (ht : TameModel nlp) (df : DataFrame) (col : String) (out : Option String)
    (ann : List AnnotatedRow) (summ : Option (List (String × Nat)))
    (h : (process_csv o nlp (Except.ok df) col out).1 = RunOutcome.done ann summ) :
    ∀ r ∈ ann, rowInvariant r := by
  by_cases hcol : col ∈ df.columns
  case neg =>
    rw [process_csv, if_neg hcol] at h
    simp at h
  case pos =>
    rw [process_csv, if_pos hcol] at h
    cases hrun : runRows o nlp col df.rows with
    | error e =>
      rw [hrun] at h
      simp at h
    | ok pr =>
      obtain ⟨ann2, all⟩ := pr
      rw [hrun] at h
      have hann : ann2 = ann := by
        by_cases hlen : (counterList all).length > 0
        · simp [hlen] at h
          exact h.1
        · simp [hlen] at h
          exact h.1
      intro r hr
      obtain ⟨species, hext, hstr, hcnt⟩ :=
        runRows_mem o nlp col df.rows ann2 all hrun r (hann ▸ hr)
      by_cases hsp : species = []
      · subst hsp
        refine ⟨?_, ?_⟩ <;> simp [rowInvariant, hstr, hcnt]
      · have hgood : ∀ e ∈ species, GoodStr e := by
          intro e he
          cases hc : getCell r.orig col with
          | na =>
            rw [hc] at hext
            simp only [extract_species_from_text, Except.ok.injEq] at hext
            exact absurd hext.symm hsp
          | num x =>
            rw [hc] at hext
            simp [extract_species_from_text] at hext
          | str s =>
            rw [hc, extract_species_from_text] at hext
            by_cases hblank : pyStrip s = ""
            · rw [if_pos hblank] at hext
              simp only [Except.ok.injEq] at hext
              exact absurd hext.symm hsp
            · rw [if_neg hblank] at hext
              simp only [Except.ok.injEq] at hext
              rw [← hext] at he
              exact goodStr_of_tame ht (((ho _).2 e).mp he)
        refine ⟨?_, ?_⟩
        · rw [hstr, hcnt, if_neg hsp]
          refine iff_of_false ?_ ?_
          · intro h0
            exact hsp (List.length_eq_zero.mp h0)
          · intro hj
            have hseg := segList_joinSemi species hsp hgood
            rw [hj] at hseg
            have h2 : species = [] := by
              rw [← hseg]
              rfl
            exact hsp h2
        · intro _
          rw [hstr, if_neg hsp, hcnt, segList_joinSemi species hsp hgood]

/-- C3 amended witness: a tame one-span model run through the theorem. -/
theorem C3_amended_witness :
    (process_csv firstDedup nlpTame (Except.ok df9) "abstract" none).1 =
      RunOutcome.done [⟨[("abstract", CellValue.str "t1")], "A", 1⟩]
        (some [("A", 1)]) ∧
    rowInvariant ⟨[("abstract", CellValue.str "t1")], "A", 1⟩ :=
  ⟨by decide,
    C3_amended firstDedup validSetOrder_firstDedup nlpTame tame_nlpTame df9 "abstract"
      none [⟨[("abstract", CellValue.str "t1")], "A", 1⟩] (some [("A", 1)]) (by decide)
      ⟨[("abstract", CellValue.str "t1")], "A", 1⟩ (by decide)⟩

/-- C9 counterexample: two runs over the same input with identical model
outputs, differing only in the (unpinned) `list(set(...))` iteration order,
produce different `extracted_species` strings; both orders are faithful models
of Python set semantics. -/
theorem C9_counterexample :
    ValidSetOrder firstDedup ∧ ValidSetOrder revDedup ∧
    (process_csv firstDedup nlpEx (Except.ok df9) "abstract" none).1 =
      RunOutcome.done [⟨[("abstract", CellValue.str "t1")], "A; B", 2⟩]
        (some [("A", 1), ("B", 1)]) ∧
    (process_csv revDedup nlpEx (Except.ok df9) "abstract" none).1 =
      RunOutcome.done [⟨[("abstract", CellValue.str "t1")], "B; A", 2⟩]
        (some [("B", 1), ("A", 1)]) ∧
    ("A; B" : String) ≠ "B; A" :=
  ⟨validSetOrder_firstDedup, validSetOrder_revDedup, by decide, by decide, by decide⟩

/-- C9 amended: the joined string is determined by the model outputs together
with the set-iteration order; two runs with the same inputs and model outputs
but possibly different faithful set orders extract permutations of the same
entity set (same species, same count), though the joined strings may differ. -/
theorem C9_amended (o1 o2 : List String → List String) (h1 : ValidSetOrder o1)
    (h2 : ValidSetOrder o2) (nlp : Model) (text : CellValue) (l1 l2 : List String)
    (e1 : (extract_species_from_text o1 nlp text).1 = Except.ok l1)
    (e2 : (extract_species_from_text o2 nlp text).1 = Except.ok l2) :
    l1.Perm l2 ∧ l1.length = l2.length := by
  have hn1 := extract_ok_nodup h1 nlp text l1 e1
  have hn2 := extract_ok_nodup h2 nlp text l2 e2
  have hmem : ∀ x, x ∈ l1 ↔ x ∈ l2 := by
    intro x
    cases text with
    | na =>
      simp only [extract_species_from_text, Except.ok.injEq] at e1 e2
      rw [← e1, ← e2]
    | num v =>
      simp [extract_species_from_text] at e1
    | str s =>
      rw [extract_species_from_text] at e1 e2
      by_cases hb : pyStrip s = ""
      · rw [if_pos hb] at e1 e2
        simp only [Except.ok.injEq] at e1 e2
        rw [← e1, ← e2]
      · rw [if_neg hb] at e1 e2
        simp only [Except.ok.injEq] at e1 e2
        rw [← e1, ← e2, (h1 _).2, (h2 _).2]
  have hperm : l1.Perm l2 := by
    rw [List.perm_iff_count]
    intro a
    by_cases hm : a ∈ l1
    · rw [List.count_eq_one_of_mem hn1 hm, List.count_eq_one_of_mem hn2 ((hmem a).mp hm)]
    · rw [List.count_eq_zero_of_not_mem hm,
        List.count_eq_zero_of_not_mem (fun hc => hm ((hmem a).mpr hc))]
  exact ⟨hperm, hperm.length_eq⟩

/-- C9 amended witness: the two concrete orders extract permuted lists. -/
theorem C9_amended_witness :
    (extract_species_from_text firstDedup nlpEx (CellValue.str "t1")).1 =
      Except.ok ["A", "B"] ∧
    (extract_species_from_text revDedup nlpEx (CellValue.str "t1")).1 =
      Except.ok ["B", "A"] ∧
    List.Perm ["A", "B"] ["B", "A"] :=
  ⟨by decide, by decide,
    (C9_amended firstDedup revDedup validSetOrder_firstDedup validSetOrder_revDedup nlpEx
      (CellValue.str "t1") ["A", "B"] ["B", "A"] (by decide) (by decide)).1⟩

end LitReview
